import Mathlib

set_option maxRecDepth 40000

/-!
Shallow embedding of `src/sb_buffer.c` / `include/sb_buffer.h`
(a growable byte-string buffer with small-string optimization).

Bytes are `Nat` values; storages (`char` arrays / heap blocks) are
`List Nat`.  `size_t` arithmetic is `Nat` with an explicit `% 2 ^ 64`
wherever the C computation can overflow; `size_t` subtraction of the C
source (`b->cap - b->len`) is embedded as `sub64`.  Undefined behaviour
(out-of-bounds `memcpy`, reading through a null source pointer) and the
non-terminating case of the capacity-doubling loop are embedded as the
absence of a result (`none`).  Freshly allocated / uninitialised bytes
are modelled by the junk value `170`, so that a terminator can never
appear in storage unless the code wrote it.
-/

/-- `size_t` modulus: `2 ^ 64`. -/
def W : Nat := 2 ^ 64

/-- `SB_BUFFER_INITIAL_CAP` from sb_buffer.h. -/
def SB_BUFFER_INITIAL_CAP : Nat := 256

/-- `SB_BUFFER_MAGIC` from sb_buffer.h (0xBABECAFE). -/
def SB_BUFFER_MAGIC : Nat := 0xBABECAFE

/-- Junk value for uninitialised bytes produced by malloc / realloc. -/
def junkByte : Nat := 170

/-- `size_t` subtraction `a - b` modulo `2 ^ 64`. -/
def sub64 (a b : Nat) : Nat := (a + (W - b % W)) % W

/-- The `SB_Buffer` struct of sb_buffer.h.  The C field `str` either
points at the embedded array `init` or at an owned heap block; that
choice is the field `onHeap`, and the heap block's bytes are `heap`
(meaningful only while `onHeap = true`). -/
structure SB_Buffer where
  magic : Nat
  initArr : List Nat
  heap : List Nat
  onHeap : Bool
  len : Nat
  cap : Nat
deriving DecidableEq

/-- The storage `b->str` currently points at. -/
def activeStorage (b : SB_Buffer) : List Nat := if b.onHeap then b.heap else b.initArr

/-- The stored content: the first `len` bytes behind `b->str`. -/
def content (b : SB_Buffer) : List Nat := (activeStorage b).take b.len

/-- Replace the storage `b->str` points at. -/
def setActive (b : SB_Buffer) (st : List Nat) : SB_Buffer :=
  if b.onHeap then { b with heap := st } else { b with initArr := st }

/-- `memcpy(dst + off, src, src.length)`: overwrite `src.length` bytes of
`dst` starting at offset `off`. -/
def writeBytes (dst : List Nat) (off : Nat) (src : List Nat) : List Nat :=
  dst.take off ++ src ++ dst.drop (off + src.length)

/-- Read `n` bytes through the source pointer `s` (`none` = NULL).
Reading a positive number of bytes through NULL, or more bytes than the
pointee holds, is undefined behaviour (`none`). -/
def readBytes : Option (List Nat) → Nat → Option (List Nat)
  | none, n => if n = 0 then some [] else none
  | some sv, n => if n ≤ sv.length then some (sv.take n) else none

/-- The capacity-doubling loop of `sb_buffer_add_lstring`:
`while (nova_cap <= target) nova_cap *= 2;` in `size_t` arithmetic.
Once the running value wraps to `0` it stays `0` and the C loop never
terminates; 66 fuel is enough to reach that fixed point from any start
below `2 ^ 64`, so `none` means the C loop diverges. -/
def growLoop : Nat → Nat → Nat → Option Nat
  | 0, _, _ => none
  | f + 1, cap, target => if target < cap then some cap else growLoop f (cap * 2 % W) target

/-- Result of one `sb_buffer_add_lstring` call: the buffer, the C return
value (`1` success, `0` failure) and, as a ghost field, the number of
allocator calls (malloc / realloc) the call performed. -/
structure AddOut where
  buf : SB_Buffer
  ret : Nat
  allocs : Nat
deriving DecidableEq

/-- Tail of `sb_buffer_add_lstring` after any growth:
`memcpy(b->str + b->len, s, len); b->len += len; b->str[b->len] = 0;`.
`none` when the copy reads through NULL or writes past the storage. -/
def finishAppend (b : SB_Buffer) (s : Option (List Nat)) (len : Nat) (allocs : Nat) :
    Option AddOut :=
  match readBytes s len with
  | none => none
  | some bytes =>
    if b.len + len + 1 ≤ (activeStorage b).length then
      some ⟨{ setActive b ((writeBytes (activeStorage b) b.len bytes).set
                ((b.len + len) % W) 0) with len := (b.len + len) % W }, 1, allocs⟩
    else none

/-- The growth step of `sb_buffer_add_lstring`, fed with the result of
the doubling loop (`none` when that loop diverges).  Heap-backed: the
block is realloc'ed (old bytes preserved, tail uninitialised).
Inline-backed: a fresh block is malloc'ed and the first `len` bytes of
the inline array are copied into it (undefined if the new block is
smaller than `len` — unreachable from valid states).  A NULL from the
allocator (`allocOk = false`) makes the call return `0` with the buffer
untouched. -/
def growAppend (allocOk : Bool) (b : SB_Buffer) (s : Option (List Nat)) (len : Nat) :
    Option Nat → Option AddOut
  | none => none
  | some nova_cap =>
    if b.onHeap then
      if allocOk then
        finishAppend
          { b with
            heap := (b.heap ++ List.replicate (nova_cap - b.heap.length) junkByte).take
              nova_cap,
            cap := nova_cap } s len 1
      else some ⟨b, 0, 1⟩
    else
      if allocOk then
        if b.len ≤ nova_cap then
          finishAppend
            { b with
              heap := b.initArr.take b.len ++ List.replicate (nova_cap - b.len) junkByte,
              onHeap := true,
              cap := nova_cap } s len 1
        else none
      else some ⟨b, 0, 1⟩

/-- `sb_buffer_add_lstring` from sb_buffer.c.  `allocOk` is the
allocator oracle: when `false`, malloc / realloc return NULL. -/
def sb_buffer_add_lstring (allocOk : Bool) (b : SB_Buffer) (s : Option (List Nat))
    (len : Nat) : Option AddOut :=
  if b.magic ≠ SB_BUFFER_MAGIC then some ⟨b, 0, 0⟩
  else
    if sub64 b.cap b.len ≤ len then
      growAppend allocOk b s len (growLoop 66 b.cap ((b.len + len + 1) % W))
    else
      finishAppend b s len 0

/-- `sb_buffer_init` from sb_buffer.c (the NULL-pointer case of the C
function is not representable on values; the second component is the C
return value). -/
def sb_buffer_init (b : SB_Buffer) : SB_Buffer × Nat :=
  ({ b with
      magic := SB_BUFFER_MAGIC
      len := 0
      cap := SB_BUFFER_INITIAL_CAP
      onHeap := false
      initArr := b.initArr.set 0 0 }, 1)

/-- `sb_buffer_get_str` from sb_buffer.c: the pointer to the active
storage, NULL (`none`) on an invalid buffer. -/
def sb_buffer_get_str (b : SB_Buffer) : Option (List Nat) :=
  if b.magic ≠ SB_BUFFER_MAGIC then none else some (activeStorage b)

/-- `sb_buffer_get_len` from sb_buffer.c. -/
def sb_buffer_get_len (b : SB_Buffer) : Nat :=
  if b.magic ≠ SB_BUFFER_MAGIC then 0 else b.len

/-- `sb_buffer_finalize` from sb_buffer.c: free the heap block if one is
active, then `str = init; str[0] = 0; len = 0; cap = INITIAL`. -/
def sb_buffer_finalize (b : SB_Buffer) : SB_Buffer × Nat :=
  if b.magic ≠ SB_BUFFER_MAGIC then (b, 0)
  else
    ({ b with
        heap := if b.onHeap then [] else b.heap
        onHeap := false
        initArr := b.initArr.set 0 0
        len := 0
        cap := SB_BUFFER_INITIAL_CAP }, 1)

/-- `sb_buffer_reset` from sb_buffer.c: free the heap block if one is
active, then `len = 0; cap = INITIAL; str = init; str[0] = 0`. -/
def sb_buffer_reset (b : SB_Buffer) : SB_Buffer × Nat :=
  if b.magic ≠ SB_BUFFER_MAGIC then (b, 0)
  else
    ({ b with
        heap := if b.onHeap then [] else b.heap
        len := 0
        cap := SB_BUFFER_INITIAL_CAP
        onHeap := false
        initArr := b.initArr.set 0 0 }, 1)

/-- `sb_buffer_clear` from sb_buffer.c: `len = 0; str[0] = 0`. -/
def sb_buffer_clear (b : SB_Buffer) : SB_Buffer × Nat :=
  if b.magic ≠ SB_BUFFER_MAGIC then (b, 0)
  else ({ setActive b ((activeStorage b).set 0 0) with len := 0 }, 1)

/-- `sb_buffer_isbuffer` from sb_buffer.c. -/
def sb_buffer_isbuffer (b : SB_Buffer) : Nat :=
  if b.magic ≠ SB_BUFFER_MAGIC then 0 else 1

/-- `sb_buffer_copy` from sb_buffer.c for two distinct buffers: check
`src`, check `dest`, hard-reset `dest`, then append `src->len` bytes
read from `src->str` (the whole active storage of `src` is readable).
The returned buffer is the new `dest`. -/
def sb_buffer_copy (allocOk : Bool) (src dest : SB_Buffer) : Option AddOut :=
  if src.magic ≠ SB_BUFFER_MAGIC then some ⟨dest, 0, 0⟩
  else if sb_buffer_isbuffer dest = 0 then some ⟨dest, 0, 0⟩
  else
    sb_buffer_add_lstring allocOk (sb_buffer_reset dest).1
      (some (activeStorage src)) src.len

/-- `sb_buffer_copy(b, b)`: the same code path with `src` and `dest`
aliased.  `src->str` and `src->len` are only read after the hard reset
of `dest`, so they are the reset buffer's storage and length. -/
def sb_buffer_copy_aliased (allocOk : Bool) (b : SB_Buffer) : Option AddOut :=
  if b.magic ≠ SB_BUFFER_MAGIC then some ⟨b, 0, 0⟩
  else if sb_buffer_isbuffer b = 0 then some ⟨b, 0, 0⟩
  else
    sb_buffer_add_lstring allocOk (sb_buffer_reset b).1
      (some (activeStorage (sb_buffer_reset b).1)) (sb_buffer_reset b).1.len

/-- Sum of the lengths of a list of byte strings. -/
def totalLen (ss : List (List Nat)) : Nat := (ss.map List.length).sum

/-- Run a sequence of `sb_buffer_add_lstring` calls, each passing the
string together with its exact length; stops (and fails) if a call
returns `0`.  The second component accumulates the allocator calls. -/
def appendAll (allocOk : Bool) (b : SB_Buffer) : List (List Nat) → Option (SB_Buffer × Nat)
  | [] => some (b, 0)
  | s :: rest =>
    match sb_buffer_add_lstring allocOk b (some s) s.length with
    | some out =>
      if out.ret = 1 then
        (appendAll allocOk out.buf rest).map (fun p => (p.1, out.allocs + p.2))
      else none
    | none => none

/-- Validity of a buffer state: correct signature, a 256-byte inline
array, a heap block of exactly `cap` bytes when heap-backed (inline
capacity when inline-backed), `len < cap`, `cap` in `size_t` range, and
the terminator at offset `len` of the active storage. -/
def SBValid (b : SB_Buffer) : Prop :=
  b.magic = SB_BUFFER_MAGIC ∧
  b.initArr.length = SB_BUFFER_INITIAL_CAP ∧
  (if b.onHeap then b.heap.length = b.cap else b.cap = SB_BUFFER_INITIAL_CAP) ∧
  b.len < b.cap ∧
  b.cap < W ∧
  (activeStorage b)[b.len]? = some 0

instance (b : SB_Buffer) : Decidable (SBValid b) := by
  unfold SBValid
  infer_instance

/-- The buffer state right after the tail of a successful append: the
bytes written at offset `len`, the terminator after them, `len`
advanced. -/
def postState (b : SB_Buffer) (bytes : List Nat) : SB_Buffer :=
  { setActive b ((writeBytes (activeStorage b) b.len bytes).set (b.len + bytes.length) 0) with
    len := b.len + bytes.length }

/-- The public operations of the Buffer component, applied to a buffer
`b` (for copy, `b` is the destination and `src` the other operand). -/
inductive SBOp where
  | opInit
  | opAdd (s : Option (List Nat)) (len : Nat)
  | opClear
  | opReset
  | opFinalize
  | opCopyFrom (src : SB_Buffer)

/-- Apply one public operation; the result pairs the new buffer with the
C return value. -/
def applyOp (allocOk : Bool) (b : SB_Buffer) : SBOp → Option (SB_Buffer × Nat)
  | SBOp.opInit => some (sb_buffer_init b)
  | SBOp.opAdd s len => (sb_buffer_add_lstring allocOk b s len).map (fun o => (o.buf, o.ret))
  | SBOp.opClear => some (sb_buffer_clear b)
  | SBOp.opReset => some (sb_buffer_reset b)
  | SBOp.opFinalize => some (sb_buffer_finalize b)
  | SBOp.opCopyFrom src => (sb_buffer_copy allocOk src b).map (fun o => (o.buf, o.ret))

/-- A raw buffer value with junk field contents, as it exists before
`sb_buffer_init` runs. -/
def junkBuf : SB_Buffer := ⟨0, List.replicate 256 junkByte, [], false, 7, 9⟩

/-- The buffer right after construction. -/
def b0c : SB_Buffer := (sb_buffer_init junkBuf).1

/-- `b0c` after appending the three bytes of "foo". -/
def b1c : SB_Buffer :=
  match sb_buffer_add_lstring true b0c (some [102, 111, 111]) 3 with
  | some o => o.buf
  | none => b0c

/-- `b0c` after appending 300 bytes: a heap-backed buffer. -/
def b2c : SB_Buffer :=
  match sb_buffer_add_lstring true b0c (some (List.replicate 300 66)) 300 with
  | some o => o.buf
  | none => b0c

/-! ### Arithmetic helpers -/

theorem W_eq : W = 18446744073709551616 := by norm_num [W]

theorem sub64_eq {a b : Nat} (hb : b ≤ a) (ha : a < W) : sub64 a b = a - b := by
  unfold sub64
  rw [Nat.mod_eq_of_lt (lt_of_le_of_lt hb ha)]
  have h1 : a + (W - b) = W + (a - b) := by omega
  rw [h1, Nat.add_mod_left]
  exact Nat.mod_eq_of_lt (by omega)

/-! ### Properties of the capacity-doubling loop -/

theorem growLoop_gt : ∀ {f c t n : Nat}, growLoop f c t = some n → t < n := by
  intro f
  induction f with
  | zero => intro c t n h; simp [growLoop] at h
  | succ f ih =>
    intro c t n h
    rw [growLoop] at h
    by_cases hc : t < c
    · rw [if_pos hc] at h
      injection h with h
      omega
    · rw [if_neg hc] at h
      exact ih h

theorem growLoop_lt_W : ∀ {f c t n : Nat}, c < W → growLoop f c t = some n → n < W := by
  intro f
  induction f with
  | zero => intro c t n _ h; simp [growLoop] at h
  | succ f ih =>
    intro c t n hc h
    rw [growLoop] at h
    by_cases hct : t < c
    · rw [if_pos hct] at h
      injection h with h
      omega
    · rw [if_neg hct] at h
      exact ih (Nat.mod_lt _ (by rw [W_eq]; omega)) h

/-- Once the doubled capacity wraps to `0` it never exceeds the target:
the C loop `while (nova_cap <= target) nova_cap *= 2;` runs forever. -/
theorem growLoop_zero_none : ∀ (f t : Nat), growLoop f 0 t = none := by
  intro f
  induction f with
  | zero => intro t; rfl
  | succ f ih =>
    intro t
    rw [growLoop, if_neg (by omega)]
    simpa using ih t

theorem growLoop_total : ∀ (f c t : Nat), t < 2 ^ 63 → 0 < c → t < c * 2 ^ f →
    ∃ n, growLoop (f + 1) c t = some n ∧ t < n := by
  intro f
  induction f with
  | zero =>
    intro c t ht hc hlt
    rw [pow_zero, Nat.mul_one] at hlt
    exact ⟨c, by rw [growLoop, if_pos hlt], hlt⟩
  | succ f ih =>
    intro c t ht hc hlt
    by_cases hct : t < c
    · exact ⟨c, by rw [growLoop, if_pos hct], hct⟩
    · have hcle : c ≤ t := Nat.le_of_not_lt hct
      have h63 : (2:Nat) ^ 63 = 9223372036854775808 := by norm_num
      have hc2 : c * 2 % W = c * 2 := by
        apply Nat.mod_eq_of_lt
        rw [W_eq]
        omega
      have hlt' : t < c * 2 * 2 ^ f := by
        rw [pow_succ] at hlt
        calc t < c * (2 ^ f * 2) := hlt
        _ = c * 2 * 2 ^ f := by ring
      obtain ⟨n, hn, htn⟩ := ih (c * 2 % W) t ht (by omega) (by rw [hc2]; exact hlt')
      exact ⟨n, by rw [growLoop, if_neg hct]; exact hn, htn⟩

/-- With the fuel used in the embedding (66), the loop is total whenever
the required size stays below `2 ^ 63`. -/
theorem growLoop_total66 {c t : Nat} (ht : t < 2 ^ 63) (hc : 0 < c) :
    ∃ n, growLoop 66 c t = some n ∧ t < n := by
  have h : t < c * 2 ^ 65 := by
    have h65 : (2:Nat) ^ 63 < 2 ^ 65 := by norm_num
    calc t < 2 ^ 65 := lt_trans ht h65
    _ ≤ c * 2 ^ 65 := Nat.le_mul_of_pos_left _ hc
  exact growLoop_total 65 c t ht hc h

/-! ### List helpers for memcpy / terminator reasoning -/

theorem writeBytes_length {dst src : List Nat} {off : Nat}
    (h : off + src.length ≤ dst.length) :
    (writeBytes dst off src).length = dst.length := by
  unfold writeBytes
  simp only [List.length_append, List.length_take, List.length_drop]
  omega

theorem take_set_of_le : ∀ (l : List Nat) (n m v : Nat), m ≤ n →
    (l.set n v).take m = l.take m
  | [], _, _, _, _ => by simp
  | a :: l, 0, m, v, h => by
    have hm : m = 0 := Nat.le_zero.mp h
    subst hm
    simp
  | a :: l, n + 1, 0, v, h => by simp
  | a :: l, n + 1, m + 1, v, h => by
    simp only [List.set_cons_succ, List.take_succ_cons]
    rw [take_set_of_le l n m v (Nat.le_of_succ_le_succ h)]

theorem writeBytes_take_content {st bytes : List Nat} {off : Nat}
    (h : off + bytes.length ≤ st.length) :
    (writeBytes st off bytes).take (off + bytes.length) = st.take off ++ bytes := by
  unfold writeBytes
  have h1 : (st.take off).length = off := by
    rw [List.length_take]
    omega
  rw [List.append_assoc]
  calc (st.take off ++ (bytes ++ st.drop (off + bytes.length))).take (off + bytes.length)
      = (st.take off ++ (bytes ++ st.drop (off + bytes.length))).take
          ((st.take off).length + bytes.length) := by rw [h1]
    _ = st.take off ++ (bytes ++ st.drop (off + bytes.length)).take bytes.length := by
          rw [List.take_append]
    _ = st.take off ++ bytes := by rw [List.take_left]

theorem finish_content {st bytes : List Nat} {off : Nat}
    (h : off + bytes.length + 1 ≤ st.length) :
    ((writeBytes st off bytes).set (off + bytes.length) 0).take (off + bytes.length) =
      st.take off ++ bytes := by
  rw [take_set_of_le _ _ _ _ (le_refl _)]
  exact writeBytes_take_content (by omega)

theorem finish_terminator {st bytes : List Nat} {off : Nat}
    (h : off + bytes.length + 1 ≤ st.length) :
    ((writeBytes st off bytes).set (off + bytes.length) 0)[off + bytes.length]? = some 0 := by
  apply List.getElem?_set_self
  rw [writeBytes_length (by omega)]
  omega

theorem finish_length {st bytes : List Nat} {off : Nat}
    (h : off + bytes.length + 1 ≤ st.length) :
    ((writeBytes st off bytes).set (off + bytes.length) 0).length = st.length := by
  rw [List.length_set, writeBytes_length (by omega)]

theorem take_append_of_le {A B : List Nat} {n : Nat} (h : n ≤ A.length) :
    (A ++ B).take n = A.take n := by
  rw [List.take_append_eq_append_take, Nat.sub_eq_zero_of_le h, List.take_zero,
    List.append_nil]

/-! ### readBytes -/

theorem readBytes_length {s : Option (List Nat)} {len : Nat} {bytes : List Nat}
    (h : readBytes s len = some bytes) : bytes.length = len := by
  cases s with
  | none =>
    simp only [readBytes] at h
    by_cases h0 : len = 0
    · rw [if_pos h0] at h
      injection h with h
      subst h
      simp [h0]
    · rw [if_neg h0] at h
      exact absurd h (by simp)
  | some sv =>
    simp only [readBytes] at h
    by_cases h0 : len ≤ sv.length
    · rw [if_pos h0] at h
      injection h with h
      subst h
      rw [List.length_take]
      omega
    · rw [if_neg h0] at h
      exact absurd h (by simp)

theorem readBytes_exact (s : List Nat) : readBytes (some s) s.length = some s := by
  simp only [readBytes, le_refl, if_true, List.take_of_length_le]

/-! ### setActive / postState field lemmas -/

theorem setActive_magic (b : SB_Buffer) (st : List Nat) : (setActive b st).magic = b.magic := by
  unfold setActive
  split <;> rfl

theorem setActive_onHeap (b : SB_Buffer) (st : List Nat) :
    (setActive b st).onHeap = b.onHeap := by
  unfold setActive
  split <;> rfl

theorem setActive_cap (b : SB_Buffer) (st : List Nat) : (setActive b st).cap = b.cap := by
  unfold setActive
  split <;> rfl

theorem setActive_len (b : SB_Buffer) (st : List Nat) : (setActive b st).len = b.len := by
  unfold setActive
  split <;> rfl

theorem activeStorage_setActive (b : SB_Buffer) (st : List Nat) :
    activeStorage (setActive b st) = st := by
  unfold setActive activeStorage
  cases hb : b.onHeap <;> simp [hb]

theorem setActive_initArr (b : SB_Buffer) (st : List Nat) :
    (setActive b st).initArr = if b.onHeap then b.initArr else st := by
  unfold setActive
  cases hb : b.onHeap <;> simp [hb]

theorem setActive_heap (b : SB_Buffer) (st : List Nat) :
    (setActive b st).heap = if b.onHeap then st else b.heap := by
  unfold setActive
  cases hb : b.onHeap <;> simp [hb]

theorem postState_magic (b : SB_Buffer) (bytes : List Nat) :
    (postState b bytes).magic = b.magic := by
  unfold postState
  rw [show ({ setActive b ((writeBytes (activeStorage b) b.len bytes).set
      (b.len + bytes.length) 0) with len := b.len + bytes.length } : SB_Buffer).magic
    = (setActive b ((writeBytes (activeStorage b) b.len bytes).set
      (b.len + bytes.length) 0)).magic from rfl]
  exact setActive_magic _ _

theorem postState_len (b : SB_Buffer) (bytes : List Nat) :
    (postState b bytes).len = b.len + bytes.length := rfl

theorem postState_cap (b : SB_Buffer) (bytes : List Nat) :
    (postState b bytes).cap = b.cap := by
  unfold postState
  rw [show ({ setActive b ((writeBytes (activeStorage b) b.len bytes).set
      (b.len + bytes.length) 0) with len := b.len + bytes.length } : SB_Buffer).cap
    = (setActive b ((writeBytes (activeStorage b) b.len bytes).set
      (b.len + bytes.length) 0)).cap from rfl]
  exact setActive_cap _ _

theorem postState_onHeap (b : SB_Buffer) (bytes : List Nat) :
    (postState b bytes).onHeap = b.onHeap := by
  unfold postState
  rw [show ({ setActive b ((writeBytes (activeStorage b) b.len bytes).set
      (b.len + bytes.length) 0) with len := b.len + bytes.length } : SB_Buffer).onHeap
    = (setActive b ((writeBytes (activeStorage b) b.len bytes).set
      (b.len + bytes.length) 0)).onHeap from rfl]
  exact setActive_onHeap _ _

theorem postState_active (b : SB_Buffer) (bytes : List Nat) :
    activeStorage (postState b bytes) =
      (writeBytes (activeStorage b) b.len bytes).set (b.len + bytes.length) 0 := by
  unfold postState activeStorage setActive
  cases hb : b.onHeap <;> simp [hb]

theorem postState_initArr (b : SB_Buffer) (bytes : List Nat) :
    (postState b bytes).initArr = if b.onHeap then b.initArr
      else (writeBytes (activeStorage b) b.len bytes).set (b.len + bytes.length) 0 := by
  unfold postState setActive
  cases hb : b.onHeap <;> simp [hb]

theorem postState_heap (b : SB_Buffer) (bytes : List Nat) :
    (postState b bytes).heap = if b.onHeap
      then (writeBytes (activeStorage b) b.len bytes).set (b.len + bytes.length) 0
      else b.heap := by
  unfold postState setActive
  cases hb : b.onHeap <;> simp [hb]

/-- In a state whose active storage has exactly `cap` bytes, a
successful append tail yields a valid buffer with the expected content
and bookkeeping. -/
theorem postState_spec {b : SB_Buffer} (bytes : List Nat)
    (hm : b.magic = SB_BUFFER_MAGIC)
    (hinit : b.initArr.length = SB_BUFFER_INITIAL_CAP)
    (hstore : if b.onHeap then b.heap.length = b.cap else b.cap = SB_BUFFER_INITIAL_CAP)
    (hcapW : b.cap < W)
    (hroom : b.len + bytes.length + 1 ≤ b.cap) :
    SBValid (postState b bytes) ∧
    content (postState b bytes) = (activeStorage b).take b.len ++ bytes ∧
    (postState b bytes).len = b.len + bytes.length ∧
    (postState b bytes).cap = b.cap ∧
    (postState b bytes).onHeap = b.onHeap := by
  have hsl : (activeStorage b).length = b.cap := by
    unfold activeStorage
    cases hb : b.onHeap <;> simp [hb] <;> simp [hb] at hstore <;> omega
  have hroom' : b.len + bytes.length + 1 ≤ (activeStorage b).length := by omega
  have hlenst : ((writeBytes (activeStorage b) b.len bytes).set
      (b.len + bytes.length) 0).length = (activeStorage b).length :=
    finish_length hroom'
  refine ⟨⟨?_, ?_, ?_, ?_, ?_, ?_⟩, ?_, postState_len b bytes, postState_cap b bytes,
    postState_onHeap b bytes⟩
  · rw [postState_magic]
    exact hm
  · rw [postState_initArr]
    cases hb : b.onHeap
    · rw [hb] at hstore
      simp only [hb, Bool.false_eq_true, if_false]
      rw [hlenst, hsl]
      simpa using hstore
    · simp only [hb, if_true]
      exact hinit
  · rw [postState_onHeap, postState_heap, postState_cap]
    cases hb : b.onHeap
    · rw [hb] at hstore
      simp only [hb, Bool.false_eq_true, if_false]
      simpa using hstore
    · simp only [hb, if_true]
      rw [hlenst, hsl]
  · rw [postState_len, postState_cap]
    omega
  · rw [postState_cap]
    exact hcapW
  · rw [postState_active, postState_len]
    exact finish_terminator hroom'
  · unfold content
    rw [postState_active, postState_len]
    exact finish_content hroom'

/-- Evaluation of `finishAppend` when the source is readable and the
write fits in the active storage. -/
theorem finishAppend_eq {b : SB_Buffer} {s : Option (List Nat)} {bytes : List Nat}
    {len allocs : Nat}
    (hread : readBytes s len = some bytes)
    (hroom : b.len + len + 1 ≤ (activeStorage b).length)
    (hW : (activeStorage b).length < W) :
    finishAppend b s len allocs = some ⟨postState b bytes, 1, allocs⟩ := by
  have hbl : bytes.length = len := readBytes_length hread
  subst hbl
  have hmod : (b.len + bytes.length) % W = b.len + bytes.length :=
    Nat.mod_eq_of_lt (by omega)
  simp only [finishAppend, hread]
  rw [if_pos hroom, hmod]
  rfl

/-! ### Evaluation lemmas for `sb_buffer_add_lstring` -/

theorem storage_length {b : SB_Buffer}
    (hinit : b.initArr.length = SB_BUFFER_INITIAL_CAP)
    (hstore : if b.onHeap then b.heap.length = b.cap else b.cap = SB_BUFFER_INITIAL_CAP) :
    (activeStorage b).length = b.cap := by
  unfold activeStorage
  cases hb : b.onHeap
  · rw [hb] at hstore
    simp only [Bool.false_eq_true, if_false] at hstore ⊢
    rw [hinit, hstore]
  · rw [hb] at hstore
    simp only [if_true] at hstore ⊢
    exact hstore

theorem finishAppend_some_inv {b : SB_Buffer} {s : Option (List Nat)} {len allocs : Nat}
    {out : AddOut} (hW : (activeStorage b).length < W)
    (h : finishAppend b s len allocs = some out) :
    ∃ bytes, readBytes s len = some bytes ∧
      b.len + len + 1 ≤ (activeStorage b).length ∧
      out = ⟨postState b bytes, 1, allocs⟩ := by
  cases hre : readBytes s len with
  | none => simp [finishAppend, hre] at h
  | some bytes =>
    by_cases hroom : b.len + len + 1 ≤ (activeStorage b).length
    · rw [finishAppend_eq hre hroom hW] at h
      injection h with h
      exact ⟨bytes, rfl, hroom, h.symm⟩
    · simp only [finishAppend, hre] at h
      rw [if_neg hroom] at h
      exact absurd h (by simp)

/-- Append that fits in the current capacity: no allocator call, the
buffer keeps its storage and capacity, bytes are appended. -/
theorem add_nogrow_eq {b : SB_Buffer} {s : Option (List Nat)} {bytes : List Nat}
    {len : Nat} (allocOk : Bool)
    (hv : SBValid b) (hread : readBytes s len = some bytes)
    (hfit : b.len + len < b.cap) :
    sb_buffer_add_lstring allocOk b s len = some ⟨postState b bytes, 1, 0⟩ := by
  obtain ⟨hm, hinit, hstore, hlen, hcapW, hterm⟩ := hv
  have hsl : (activeStorage b).length = b.cap := storage_length hinit hstore
  have hmn : ¬(b.magic ≠ SB_BUFFER_MAGIC) := by simp [hm]
  unfold sb_buffer_add_lstring
  rw [if_neg hmn, sub64_eq (le_of_lt hlen) hcapW]
  rw [if_neg (show ¬(b.cap - b.len ≤ len) by omega)]
  exact finishAppend_eq hread (by omega) (by omega)

theorem INITIAL_CAP_eq : SB_BUFFER_INITIAL_CAP = 256 := rfl

/-- Append that needs growth, with the allocator succeeding: exactly one
allocator call, the buffer becomes (or stays) heap-backed with the prior
bytes preserved, and the ordinary append tail runs on the grown state. -/
theorem add_grow_eq {b : SB_Buffer} {s : Option (List Nat)} {bytes : List Nat} {len : Nat}
    (hv : SBValid b) (hread : readBytes s len = some bytes)
    (hneed : b.cap ≤ b.len + len) (hbound : b.len + len + 1 < 2 ^ 63) :
    ∃ bG, sb_buffer_add_lstring true b s len = some ⟨postState bG bytes, 1, 1⟩ ∧
      bG.magic = b.magic ∧ bG.initArr = b.initArr ∧ bG.onHeap = true ∧
      bG.len = b.len ∧ bG.heap.length = bG.cap ∧
      b.len + len + 1 < bG.cap ∧ bG.cap < W ∧
      (activeStorage bG).take b.len = content b := by
  obtain ⟨hm, hinit, hstore, hlen, hcapW, hterm⟩ := hv
  have hsl : (activeStorage b).length = b.cap := storage_length hinit hstore
  have hinit' : b.initArr.length = 256 := by rw [hinit, INITIAL_CAP_eq]
  have h63W : (2:Nat) ^ 63 < W := by rw [W_eq]; norm_num
  have hmod : (b.len + len + 1) % W = b.len + len + 1 := Nat.mod_eq_of_lt (by omega)
  obtain ⟨n, hn, htn⟩ := growLoop_total66 hbound (show 0 < b.cap by omega)
  have hnW : n < W := growLoop_lt_W hcapW hn
  have hmn : ¬(b.magic ≠ SB_BUFFER_MAGIC) := by simp [hm]
  cases hb : b.onHeap
  · -- inline-backed: malloc + copy of the inline bytes
    have hcap256 : b.cap = 256 := by
      rw [hb] at hstore
      simp only [Bool.false_eq_true, if_false] at hstore
      rw [hstore, INITIAL_CAP_eq]
    have hstG : (activeStorage { b with
        heap := b.initArr.take b.len ++ List.replicate (n - b.len) junkByte,
        onHeap := true, cap := n }).length = n := by
      simp only [activeStorage, if_true, List.length_append, List.length_take,
        List.length_replicate, hinit']
      omega
    refine ⟨{ b with
        heap := b.initArr.take b.len ++ List.replicate (n - b.len) junkByte,
        onHeap := true, cap := n }, ?_, rfl, rfl, rfl, rfl, ?_, htn, hnW, ?_⟩
    · unfold sb_buffer_add_lstring
      rw [if_neg hmn, sub64_eq (le_of_lt hlen) hcapW]
      rw [if_pos (show b.cap - b.len ≤ len by omega)]
      rw [hmod, hn]
      simp only [growAppend, hb, Bool.false_eq_true, if_false]
      rw [if_pos trivial, if_pos (show b.len ≤ n by omega)]
      refine finishAppend_eq hread ?_ ?_
      · rw [hstG]
        show b.len + len + 1 ≤ n
        omega
      · rw [hstG]
        exact hnW
    · rw [show ({ b with
          heap := b.initArr.take b.len ++ List.replicate (n - b.len) junkByte,
          onHeap := true, cap := n } : SB_Buffer).heap
        = b.initArr.take b.len ++ List.replicate (n - b.len) junkByte from rfl]
      simp only [List.length_append, List.length_take, List.length_replicate, hinit']
      omega
    · rw [show activeStorage { b with
          heap := b.initArr.take b.len ++ List.replicate (n - b.len) junkByte,
          onHeap := true, cap := n }
        = b.initArr.take b.len ++ List.replicate (n - b.len) junkByte from rfl]
      rw [take_append_of_le (by rw [List.length_take]; omega)]
      rw [List.take_take, Nat.min_self]
      unfold content activeStorage
      rw [hb]
      simp
  · -- heap-backed: realloc
    have hheap : b.heap.length = b.cap := by
      rw [hb] at hstore
      simpa using hstore
    have hstG : (activeStorage { b with
        heap := (b.heap ++ List.replicate (n - b.heap.length) junkByte).take n,
        onHeap := true, cap := n }).length = n := by
      rw [show activeStorage { b with
          heap := (b.heap ++ List.replicate (n - b.heap.length) junkByte).take n,
          onHeap := true, cap := n }
        = (b.heap ++ List.replicate (n - b.heap.length) junkByte).take n from rfl]
      simp only [List.length_take, List.length_append, List.length_replicate]
      omega
    refine ⟨{ b with
        heap := (b.heap ++ List.replicate (n - b.heap.length) junkByte).take n,
        onHeap := true, cap := n }, ?_, rfl, rfl, rfl, rfl, ?_, htn, hnW, ?_⟩
    · unfold sb_buffer_add_lstring
      rw [if_neg hmn, sub64_eq (le_of_lt hlen) hcapW]
      rw [if_pos (show b.cap - b.len ≤ len by omega)]
      rw [hmod, hn]
      simp only [growAppend, hb, if_true]
      refine finishAppend_eq hread ?_ ?_
      · rw [hstG]
        show b.len + len + 1 ≤ n
        omega
      · rw [hstG]
        exact hnW
    · rw [show ({ b with
          heap := (b.heap ++ List.replicate (n - b.heap.length) junkByte).take n,
          onHeap := true, cap := n } : SB_Buffer).heap
        = (b.heap ++ List.replicate (n - b.heap.length) junkByte).take n from rfl]
      simp only [List.length_take, List.length_append, List.length_replicate]
      omega
    · rw [show activeStorage { b with
          heap := (b.heap ++ List.replicate (n - b.heap.length) junkByte).take n,
          onHeap := true, cap := n }
        = (b.heap ++ List.replicate (n - b.heap.length) junkByte).take n from rfl]
      rw [List.take_take, Nat.min_eq_left (by omega)]
      rw [take_append_of_le (by omega)]
      unfold content activeStorage
      rw [hb]
      simp

/-- Growth needed but the allocator returns NULL: the call returns `0`
and the buffer value is bit-for-bit unchanged. -/
theorem add_allocfail_eq {b : SB_Buffer} {s : Option (List Nat)} {len : Nat}
    (hv : SBValid b) (hneed : b.cap ≤ b.len + len) (hbound : b.len + len + 1 < 2 ^ 63) :
    sb_buffer_add_lstring false b s len = some ⟨b, 0, 1⟩ := by
  obtain ⟨hm, hinit, hstore, hlen, hcapW, hterm⟩ := hv
  have h63W : (2:Nat) ^ 63 < W := by rw [W_eq]; norm_num
  have hmod : (b.len + len + 1) % W = b.len + len + 1 := Nat.mod_eq_of_lt (by omega)
  obtain ⟨n, hn, htn⟩ := growLoop_total66 hbound (show 0 < b.cap by omega)
  have hmn : ¬(b.magic ≠ SB_BUFFER_MAGIC) := by simp [hm]
  unfold sb_buffer_add_lstring
  rw [if_neg hmn, sub64_eq (le_of_lt hlen) hcapW]
  rw [if_pos (show b.cap - b.len ≤ len by omega)]
  rw [hmod, hn]
  cases hb : b.onHeap <;>
    simp [growAppend, hb]

/-- Any `sb_buffer_add_lstring` call on a valid buffer that returns `1`
leaves a valid buffer. -/
theorem add_success_valid {allocOk : Bool} {b : SB_Buffer} {s : Option (List Nat)}
    {len : Nat} {out : AddOut} (hv : SBValid b)
    (h : sb_buffer_add_lstring allocOk b s len = some out) (hret : out.ret = 1) :
    SBValid out.buf := by
  obtain ⟨hm, hinit, hstore, hlen, hcapW, hterm⟩ := hv
  have hsl : (activeStorage b).length = b.cap := storage_length hinit hstore
  have hinit' : b.initArr.length = 256 := by rw [hinit, INITIAL_CAP_eq]
  have hmn : ¬(b.magic ≠ SB_BUFFER_MAGIC) := by simp [hm]
  unfold sb_buffer_add_lstring at h
  rw [if_neg hmn] at h
  by_cases hg : sub64 b.cap b.len ≤ len
  · rw [if_pos hg] at h
    rw [sub64_eq (le_of_lt hlen) hcapW] at hg
    cases hgl : growLoop 66 b.cap ((b.len + len + 1) % W) with
    | none =>
      rw [hgl] at h
      simp [growAppend] at h
    | some n =>
      rw [hgl] at h
      have hnW : n < W := growLoop_lt_W hcapW hgl
      cases hb : b.onHeap
      · -- inline-backed growth: malloc branch
        have hcap256 : b.cap = 256 := by
          rw [hb] at hstore
          simp only [Bool.false_eq_true, if_false] at hstore
          rw [hstore, INITIAL_CAP_eq]
        simp only [growAppend, hb, Bool.false_eq_true, if_false] at h
        cases hA : allocOk
        · rw [hA] at h
          simp only [Bool.false_eq_true, if_false] at h
          injection h with h
          rw [← h] at hret
          exact absurd hret (by simp)
        · rw [hA] at h
          simp only [if_true] at h
          by_cases hguard : b.len ≤ n
          · rw [if_pos hguard] at h
            have hstG : (activeStorage { b with
                heap := b.initArr.take b.len ++ List.replicate (n - b.len) junkByte,
                onHeap := true, cap := n }).length = n := by
              rw [show activeStorage { b with
                  heap := b.initArr.take b.len ++ List.replicate (n - b.len) junkByte,
                  onHeap := true, cap := n }
                = b.initArr.take b.len ++ List.replicate (n - b.len) junkByte from rfl]
              simp only [List.length_append, List.length_take, List.length_replicate, hinit']
              omega
            obtain ⟨bytes, hre, hroom, hout⟩ := finishAppend_some_inv (by rw [hstG]; exact hnW) h
            rw [hout]
            refine (postState_spec (b := { b with
                heap := b.initArr.take b.len ++ List.replicate (n - b.len) junkByte,
                onHeap := true, cap := n }) bytes hm hinit' ?_ ?_ ?_).1
            · show (List.take b.len b.initArr ++ List.replicate (n - b.len) junkByte).length = n
              simp only [List.length_append, List.length_take, List.length_replicate, hinit']
              omega
            · show n < W
              exact hnW
            · rw [hstG] at hroom
              have hroom' : b.len + len + 1 ≤ n := hroom
              have hbl : bytes.length = len := readBytes_length hre
              show b.len + bytes.length + 1 ≤ n
              omega
          · rw [if_neg hguard] at h
            exact absurd h (by simp)
      · -- heap-backed growth: realloc branch
        have hheap : b.heap.length = b.cap := by
          rw [hb] at hstore
          simpa using hstore
        simp only [growAppend, hb, if_true] at h
        cases hA : allocOk
        · rw [hA] at h
          simp only [Bool.false_eq_true, if_false] at h
          injection h with h
          rw [← h] at hret
          exact absurd hret (by simp)
        · rw [hA] at h
          simp only [if_true] at h
          have hstG : (activeStorage { b with
              heap := (b.heap ++ List.replicate (n - b.heap.length) junkByte).take n,
              onHeap := true, cap := n }).length = n := by
            rw [show activeStorage { b with
                heap := (b.heap ++ List.replicate (n - b.heap.length) junkByte).take n,
                onHeap := true, cap := n }
              = (b.heap ++ List.replicate (n - b.heap.length) junkByte).take n from rfl]
            simp only [List.length_take, List.length_append, List.length_replicate]
            omega
          obtain ⟨bytes, hre, hroom, hout⟩ := finishAppend_some_inv (by rw [hstG]; exact hnW) h
          rw [hout]
          refine (postState_spec (b := { b with
              heap := (b.heap ++ List.replicate (n - b.heap.length) junkByte).take n,
              onHeap := true, cap := n }) bytes hm hinit' ?_ ?_ ?_).1
          · show (List.take n (b.heap ++ List.replicate (n - b.heap.length) junkByte)).length = n
            simp only [List.length_take, List.length_append, List.length_replicate]
            omega
          · show n < W
            exact hnW
          · rw [hstG] at hroom
            have hroom' : b.len + len + 1 ≤ n := hroom
            have hbl : bytes.length = len := readBytes_length hre
            show b.len + bytes.length + 1 ≤ n
            omega
  · rw [if_neg hg] at h
    obtain ⟨bytes, hre, hroom, hout⟩ := finishAppend_some_inv (by rw [hsl]; exact hcapW) h
    rw [hout]
    refine (postState_spec bytes hm hinit' hstore hcapW ?_).1
    rw [hsl] at hroom
    have hbl : bytes.length = len := readBytes_length hre
    omega

/-- Full specification of a successful append of the byte string `s`
(passed with its exact length) on a valid buffer, for total sizes in
`size_t` range: it succeeds, appends the bytes, and allocates exactly
when the current capacity is insufficient. -/
theorem add_total_spec {b : SB_Buffer} {s : List Nat}
    (hv : SBValid b) (hbound : b.len + s.length + 1 < 2 ^ 63) :
    ∃ out, sb_buffer_add_lstring true b (some s) s.length = some out ∧
      out.ret = 1 ∧ SBValid out.buf ∧
      content out.buf = content b ++ s ∧
      out.buf.len = b.len + s.length ∧
      (b.len + s.length < b.cap →
        out.allocs = 0 ∧ out.buf.cap = b.cap ∧ out.buf.onHeap = b.onHeap) ∧
      (b.cap ≤ b.len + s.length → out.allocs = 1 ∧ out.buf.onHeap = true) := by
  have hread : readBytes (some s) s.length = some s := readBytes_exact s
  obtain ⟨hm, hinit, hstore, hlen, hcapW, hterm⟩ := hv
  have hv' : SBValid b := ⟨hm, hinit, hstore, hlen, hcapW, hterm⟩
  have hinit' : b.initArr.length = 256 := by rw [hinit, INITIAL_CAP_eq]
  by_cases hfit : b.len + s.length < b.cap
  · have heq := add_nogrow_eq true hv' hread hfit
    obtain ⟨hpv, hpc, hpl, hpcap, hpon⟩ :=
      postState_spec (b := b) s hm hinit hstore hcapW (by omega)
    exact ⟨⟨postState b s, 1, 0⟩, heq, rfl, hpv, hpc, hpl, fun _ => ⟨rfl, hpcap, hpon⟩,
      fun hc => absurd hc (by omega)⟩
  · have hneed : b.cap ≤ b.len + s.length := by omega
    obtain ⟨bG, heq, hmg, hig, hog, hlg, hhg, hcg, hcWg, htk⟩ :=
      add_grow_eq hv' hread hneed hbound
    have hstoreG : if bG.onHeap then bG.heap.length = bG.cap
        else bG.cap = SB_BUFFER_INITIAL_CAP := by
      rw [hog]
      simpa using hhg
    obtain ⟨hpv, hpc, hpl, hpcap, hpon⟩ :=
      postState_spec (b := bG) s (by rw [hmg]; exact hm)
        (by rw [hig]; exact hinit) hstoreG hcWg (by rw [hlg]; omega)
    refine ⟨⟨postState bG s, 1, 1⟩, heq, rfl, hpv, ?_, ?_, fun hc => absurd hc (by omega),
      fun _ => ⟨rfl, by rw [hpon]; exact hog⟩⟩
    · rw [hpc, hlg, htk]
    · rw [hpl, hlg]

/-- A sequence of appends on a valid buffer, all within `size_t` range,
succeeds and concatenates. -/
theorem appendAll_spec : ∀ (ss : List (List Nat)) (b : SB_Buffer), SBValid b →
    b.len + totalLen ss + 1 < 2 ^ 63 →
    ∃ b' a, appendAll true b ss = some (b', a) ∧ SBValid b' ∧
      content b' = content b ++ ss.flatten ∧ b'.len = b.len + totalLen ss := by
  intro ss
  induction ss with
  | nil =>
    intro b hv _
    exact ⟨b, 0, rfl, hv, by simp, by simp [totalLen]⟩
  | cons s rest ih =>
    intro b hv hbound
    have htot : totalLen (s :: rest) = s.length + totalLen rest := by
      simp [totalLen]
    obtain ⟨out, heq, hret, hv1, hc1, hl1, _, _⟩ := add_total_spec (s := s) hv (by omega)
    obtain ⟨b', a, heq2, hv2, hc2, hl2⟩ := ih out.buf hv1 (by rw [hl1]; omega)
    refine ⟨b', out.allocs + a, ?_, hv2, ?_, ?_⟩
    · simp only [appendAll, heq, hret, if_pos, heq2]
      rfl
    · rw [hc2, hc1, List.flatten_cons, List.append_assoc]
    · rw [hl2, hl1, htot]
      omega

/-- While every running total stays strictly below the capacity of an
inline-backed buffer, a sequence of appends performs no allocator call
and the buffer stays inline-backed. -/
theorem appendAll_inline_spec : ∀ (ss : List (List Nat)) (b : SB_Buffer), SBValid b →
    b.onHeap = false → b.len + totalLen ss < b.cap →
    ∃ b', appendAll true b ss = some (b', 0) ∧ SBValid b' ∧ b'.onHeap = false ∧
      b'.cap = b.cap ∧ content b' = content b ++ ss.flatten ∧
      b'.len = b.len + totalLen ss := by
  intro ss
  induction ss with
  | nil =>
    intro b hv hon _
    exact ⟨b, rfl, hv, hon, rfl, by simp, by simp [totalLen]⟩
  | cons s rest ih =>
    intro b hv hon hfit
    have hcap256 : b.cap = 256 := by
      obtain ⟨_, _, hstore, _, _, _⟩ := hv
      rw [hon] at hstore
      simp only [Bool.false_eq_true, if_false] at hstore
      rw [hstore, INITIAL_CAP_eq]
    have htot : totalLen (s :: rest) = s.length + totalLen rest := by
      simp [totalLen]
    obtain ⟨out, heq, hret, hv1, hc1, hl1, hnog, _⟩ :=
      add_total_spec (s := s) hv (by omega)
    obtain ⟨ha, hcap1, hon1⟩ := hnog (by omega)
    obtain ⟨b', heq2, hv2, hon2, hcap2, hc2, hl2⟩ :=
      ih out.buf hv1 (by rw [hon1]; exact hon) (by rw [hl1, hcap1]; omega)
    refine ⟨b', ?_, hv2, hon2, by rw [hcap2, hcap1], ?_, ?_⟩
    · simp only [appendAll, heq, hret, if_pos, heq2, ha]
      rfl
    · rw [hc2, hc1, List.flatten_cons, List.append_assoc]
    · rw [hl2, hl1, htot]
      omega

/-- Splitting a sequence of appends. -/
theorem appendAll_append : ∀ (ss ts : List (List Nat)) (b : SB_Buffer),
    appendAll true b (ss ++ ts) =
      (appendAll true b ss).bind (fun p =>
        (appendAll true p.1 ts).map (fun q => (q.1, p.2 + q.2))) := by
  intro ss
  induction ss with
  | nil =>
    intro ts b
    simp only [List.nil_append, appendAll]
    cases h : appendAll true b ts with
    | none => simp [h]
    | some p => simp [h]
  | cons s ss ih =>
    intro ts b
    simp only [List.cons_append, appendAll, List.append_eq]
    cases h : sb_buffer_add_lstring true b (some s) s.length with
    | none => simp
    | some out =>
      simp only []
      by_cases hr : out.ret = 1
      · rw [if_pos hr, if_pos hr, ih ts out.buf]
        cases h2 : appendAll true out.buf ss with
        | none => simp
        | some p =>
          cases h3 : appendAll true p.1 ts with
          | none => simp [h3]
          | some q => simp [h3, Nat.add_assoc]
      · rw [if_neg hr, if_neg hr]
        simp

/-! ### reset / finalize / clear / init -/

theorem reset_eq_finalize (b : SB_Buffer) : sb_buffer_reset b = sb_buffer_finalize b := by
  unfold sb_buffer_reset sb_buffer_finalize
  rfl

theorem W_pos256 : 256 < W := by rw [W_eq]; omega

theorem reset_spec {b : SB_Buffer} (hv : SBValid b) :
    (sb_buffer_reset b).2 = 1 ∧ SBValid (sb_buffer_reset b).1 ∧
    (sb_buffer_reset b).1.len = 0 ∧
    (sb_buffer_reset b).1.cap = SB_BUFFER_INITIAL_CAP ∧
    (sb_buffer_reset b).1.onHeap = false ∧
    content (sb_buffer_reset b).1 = [] ∧
    (sb_buffer_reset b).1.initArr = b.initArr.set 0 0 := by
  obtain ⟨hm, hinit, hstore, hlen, hcapW, hterm⟩ := hv
  have hmn : ¬(b.magic ≠ SB_BUFFER_MAGIC) := by simp [hm]
  unfold sb_buffer_reset
  rw [if_neg hmn]
  refine ⟨rfl, ⟨hm, ?_, ?_, ?_, ?_, ?_⟩, rfl, rfl, rfl, ?_, rfl⟩
  · show (b.initArr.set 0 0).length = SB_BUFFER_INITIAL_CAP
    rw [List.length_set]
    exact hinit
  · show SB_BUFFER_INITIAL_CAP = SB_BUFFER_INITIAL_CAP
    rfl
  · show 0 < SB_BUFFER_INITIAL_CAP
    rw [INITIAL_CAP_eq]
    omega
  · show SB_BUFFER_INITIAL_CAP < W
    rw [INITIAL_CAP_eq]
    exact W_pos256
  · show (b.initArr.set 0 0)[0]? = some 0
    apply List.getElem?_set_self
    rw [hinit, INITIAL_CAP_eq]
    omega
  · show (activeStorage _).take 0 = []
    rw [List.take_zero]

theorem init_spec {b : SB_Buffer} (hinit : b.initArr.length = SB_BUFFER_INITIAL_CAP) :
    (sb_buffer_init b).2 = 1 ∧ SBValid (sb_buffer_init b).1 ∧
    (sb_buffer_init b).1.len = 0 ∧
    (sb_buffer_init b).1.cap = SB_BUFFER_INITIAL_CAP ∧
    (sb_buffer_init b).1.onHeap = false ∧
    content (sb_buffer_init b).1 = [] := by
  unfold sb_buffer_init
  refine ⟨rfl, ⟨rfl, ?_, ?_, ?_, ?_, ?_⟩, rfl, rfl, rfl, ?_⟩
  · show (b.initArr.set 0 0).length = SB_BUFFER_INITIAL_CAP
    rw [List.length_set]
    exact hinit
  · show SB_BUFFER_INITIAL_CAP = SB_BUFFER_INITIAL_CAP
    rfl
  · show 0 < SB_BUFFER_INITIAL_CAP
    rw [INITIAL_CAP_eq]
    omega
  · show SB_BUFFER_INITIAL_CAP < W
    rw [INITIAL_CAP_eq]
    exact W_pos256
  · show (b.initArr.set 0 0)[0]? = some 0
    apply List.getElem?_set_self
    rw [hinit, INITIAL_CAP_eq]
    omega
  · show (activeStorage _).take 0 = []
    rw [List.take_zero]

theorem clear_active (b : SB_Buffer) :
    activeStorage (sb_buffer_clear b).1 =
      if b.magic ≠ SB_BUFFER_MAGIC then activeStorage b
      else (activeStorage b).set 0 0 := by
  unfold sb_buffer_clear
  by_cases hm : b.magic ≠ SB_BUFFER_MAGIC
  · rw [if_pos hm, if_pos hm]
  · rw [if_neg hm, if_neg hm]
    show activeStorage { setActive b ((activeStorage b).set 0 0) with len := 0 } = _
    unfold setActive activeStorage
    cases hb : b.onHeap <;> simp [hb]

theorem clear_spec {b : SB_Buffer} (hv : SBValid b) :
    (sb_buffer_clear b).2 = 1 ∧ SBValid (sb_buffer_clear b).1 ∧
    (sb_buffer_clear b).1.len = 0 ∧
    (sb_buffer_clear b).1.cap = b.cap ∧
    (sb_buffer_clear b).1.onHeap = b.onHeap ∧
    activeStorage (sb_buffer_clear b).1 = (activeStorage b).set 0 0 := by
  obtain ⟨hm, hinit, hstore, hlen, hcapW, hterm⟩ := hv
  have hsl : (activeStorage b).length = b.cap :=
    storage_length hinit hstore
  have hmn : ¬(b.magic ≠ SB_BUFFER_MAGIC) := by simp [hm]
  have hact : activeStorage (sb_buffer_clear b).1 = (activeStorage b).set 0 0 := by
    rw [clear_active, if_neg hmn]
  have hfst : (sb_buffer_clear b).1 =
      { setActive b ((activeStorage b).set 0 0) with len := 0 } := by
    unfold sb_buffer_clear
    rw [if_neg hmn]
  have hcap : (sb_buffer_clear b).1.cap = b.cap := by
    rw [hfst]
    show (setActive b ((activeStorage b).set 0 0)).cap = b.cap
    exact setActive_cap _ _
  have honh : (sb_buffer_clear b).1.onHeap = b.onHeap := by
    rw [hfst]
    show (setActive b ((activeStorage b).set 0 0)).onHeap = b.onHeap
    exact setActive_onHeap _ _
  have hlen0 : (sb_buffer_clear b).1.len = 0 := by
    rw [hfst]
  have hret : (sb_buffer_clear b).2 = 1 := by
    unfold sb_buffer_clear
    rw [if_neg hmn]
  refine ⟨hret, ⟨?_, ?_, ?_, ?_, ?_, ?_⟩, hlen0, hcap, honh, hact⟩
  · rw [hfst]
    show (setActive b ((activeStorage b).set 0 0)).magic = SB_BUFFER_MAGIC
    rw [setActive_magic]
    exact hm
  · rw [hfst]
    show (setActive b ((activeStorage b).set 0 0)).initArr.length = SB_BUFFER_INITIAL_CAP
    rw [setActive_initArr]
    cases hb : b.onHeap
    · simp only [Bool.false_eq_true, if_false]
      unfold activeStorage
      rw [hb]
      simp only [Bool.false_eq_true, if_false, List.length_set]
      exact hinit
    · simp only [if_true]
      exact hinit
  · rw [honh, hcap]
    rw [hfst]
    show (if b.onHeap then (setActive b ((activeStorage b).set 0 0)).heap.length = b.cap
      else b.cap = SB_BUFFER_INITIAL_CAP)
    rw [setActive_heap]
    cases hb : b.onHeap
    · rw [hb] at hstore
      simpa using hstore
    · rw [hb] at hstore
      simp only [if_true, List.length_set]
      unfold activeStorage
      rw [hb]
      simpa using hstore
  · rw [hlen0, hcap]
    omega
  · rw [hcap]
    exact hcapW
  · rw [hact, hlen0]
    apply List.getElem?_set_self
    rw [hsl]
    omega

/-- Like `add_total_spec` but for any readable source (`len` bytes read
from pointer `s`). -/
theorem add_read_spec {b : SB_Buffer} {s : Option (List Nat)} {bytes : List Nat} {len : Nat}
    (hv : SBValid b) (hread : readBytes s len = some bytes)
    (hbound : b.len + len + 1 < 2 ^ 63) :
    ∃ out, sb_buffer_add_lstring true b s len = some out ∧
      out.ret = 1 ∧ SBValid out.buf ∧
      content out.buf = content b ++ bytes ∧
      out.buf.len = b.len + len ∧
      (b.len + len < b.cap →
        out.allocs = 0 ∧ out.buf.cap = b.cap ∧ out.buf.onHeap = b.onHeap) ∧
      (b.cap ≤ b.len + len → out.allocs = 1 ∧ out.buf.onHeap = true) := by
  have hbl : bytes.length = len := readBytes_length hread
  obtain ⟨hm, hinit, hstore, hlen, hcapW, hterm⟩ := hv
  have hv' : SBValid b := ⟨hm, hinit, hstore, hlen, hcapW, hterm⟩
  by_cases hfit : b.len + len < b.cap
  · have heq := add_nogrow_eq true hv' hread hfit
    obtain ⟨hpv, hpc, hpl, hpcap, hpon⟩ :=
      postState_spec (b := b) bytes hm hinit hstore hcapW (by omega)
    refine ⟨⟨postState b bytes, 1, 0⟩, heq, rfl, hpv, hpc, ?_, fun _ => ⟨rfl, hpcap, hpon⟩,
      fun hc => absurd hc (by omega)⟩
    rw [hpl, hbl]
  · have hneed : b.cap ≤ b.len + len := by omega
    obtain ⟨bG, heq, hmg, hig, hog, hlg, hhg, hcg, hcWg, htk⟩ :=
      add_grow_eq hv' hread hneed hbound
    have hstoreG : if bG.onHeap then bG.heap.length = bG.cap
        else bG.cap = SB_BUFFER_INITIAL_CAP := by
      rw [hog]
      simpa using hhg
    obtain ⟨hpv, hpc, hpl, hpcap, hpon⟩ :=
      postState_spec (b := bG) bytes (by rw [hmg]; exact hm)
        (by rw [hig]; exact hinit) hstoreG hcWg (by rw [hlg]; omega)
    refine ⟨⟨postState bG bytes, 1, 1⟩, heq, rfl, hpv, ?_, ?_,
      fun hc => absurd hc (by omega), fun _ => ⟨rfl, by rw [hpon]; exact hog⟩⟩
    · rw [hpc, hlg, htk]
    · rw [hpl, hlg, hbl]

/-! ### copy -/

theorem isbuffer_valid {b : SB_Buffer} (hm : b.magic = SB_BUFFER_MAGIC) :
    sb_buffer_isbuffer b = 1 := by
  unfold sb_buffer_isbuffer
  rw [if_neg (by simp [hm])]

/-- Successful deep copy between two (value-wise distinct) buffers. -/
theorem copy_spec {src dest : SB_Buffer} (hvs : SBValid src) (hvd : SBValid dest)
    (hbound : src.len + 1 < 2 ^ 63) :
    ∃ out, sb_buffer_copy true src dest = some out ∧ out.ret = 1 ∧ SBValid out.buf ∧
      content out.buf = content src ∧ out.buf.len = src.len := by
  obtain ⟨hms, hinits, hstores, hlens, hcapWs, hterms⟩ := hvs
  have hvs' : SBValid src := ⟨hms, hinits, hstores, hlens, hcapWs, hterms⟩
  have hsls : (activeStorage src).length = src.cap := storage_length hinits hstores
  obtain ⟨hr2, hvd1, hl1, hc1, ho1, hco1, _⟩ := reset_spec hvd
  obtain ⟨hmd, _, _, _, _, _⟩ := hvd
  have hread : readBytes (some (activeStorage src)) src.len = some (content src) := by
    simp only [readBytes]
    rw [if_pos (by omega)]
    rfl
  obtain ⟨out, heq, hret, hvo, hco, hlo, _, _⟩ :=
    add_read_spec hvd1 hread (by rw [hl1]; omega)
  refine ⟨out, ?_, hret, hvo, ?_, ?_⟩
  · unfold sb_buffer_copy
    rw [if_neg (by simp [hms])]
    rw [if_neg (by rw [isbuffer_valid hmd]; omega)]
    exact heq
  · rw [hco, hco1, List.nil_append]
  · rw [hlo, hl1, Nat.zero_add]

/-- `sb_buffer_copy(b, b)`: the aliased call succeeds and leaves the
buffer hard-reset (length 0, empty content, inline-backed). -/
theorem copy_aliased_spec {b : SB_Buffer} (hv : SBValid b) :
    ∃ out, sb_buffer_copy_aliased true b = some out ∧ out.ret = 1 ∧ SBValid out.buf ∧
      out.buf.len = 0 ∧ content out.buf = [] ∧ out.buf.onHeap = false := by
  obtain ⟨hm, hinit, hstore, hlen, hcapW, hterm⟩ := hv
  have hv' : SBValid b := ⟨hm, hinit, hstore, hlen, hcapW, hterm⟩
  obtain ⟨hr2, hvd1, hl1, hc1, ho1, hco1, _⟩ := reset_spec hv'
  have hread : readBytes (some (activeStorage (sb_buffer_reset b).1))
      (sb_buffer_reset b).1.len = some [] := by
    simp only [readBytes]
    rw [if_pos (by omega)]
    rw [hl1, List.take_zero]
  obtain ⟨out, heq, hret, hvo, hco, hlo, hnog, _⟩ :=
    add_read_spec hvd1 hread (by rw [hl1]; norm_num)
  refine ⟨out, ?_, hret, hvo, ?_, ?_, ?_⟩
  · unfold sb_buffer_copy_aliased
    rw [if_neg (by simp [hm])]
    rw [if_neg (by rw [isbuffer_valid hm]; omega)]
    exact heq
  · rw [hlo, hl1]
  · rw [hco, hco1, List.append_nil]
  · obtain ⟨_, _, honh⟩ := hnog (by rw [hl1, hc1, INITIAL_CAP_eq]; omega)
    rw [honh, ho1]

/-- The source pointer is never validated: with a NULL source and a
nonzero length, a valid buffer and a cooperating allocator, execution
always reaches a `memcpy` that reads through the null pointer —
undefined behaviour, not a clean failure. -/
theorem add_null_src {b : SB_Buffer} {len : Nat} (hm : b.magic = SB_BUFFER_MAGIC)
    (hpos : 0 < len) : sb_buffer_add_lstring true b none len = none := by
  have hrb : readBytes none len = none := by
    simp only [readBytes]
    rw [if_neg (by omega)]
  unfold sb_buffer_add_lstring
  rw [if_neg (by simp [hm])]
  by_cases hg : sub64 b.cap b.len ≤ len
  · rw [if_pos hg]
    cases hgl : growLoop 66 b.cap ((b.len + len + 1) % W) with
    | none => simp [growAppend]
    | some n => simp [growAppend, finishAppend, hrb]
  · rw [if_neg hg]
    simp [finishAppend, hrb]

/-- Specification of a fitting append (no growth), with no size-bound
hypothesis: no allocator call, capacity and storage choice retained. -/
theorem add_nogrow_spec {b : SB_Buffer} {s : Option (List Nat)} {bytes : List Nat}
    {len : Nat} (allocOk : Bool) (hv : SBValid b)
    (hread : readBytes s len = some bytes) (hfit : b.len + len < b.cap) :
    ∃ out, sb_buffer_add_lstring allocOk b s len = some out ∧
      out.ret = 1 ∧ SBValid out.buf ∧
      content out.buf = content b ++ bytes ∧
      out.buf.len = b.len + len ∧ out.allocs = 0 ∧
      out.buf.cap = b.cap ∧ out.buf.onHeap = b.onHeap := by
  have hbl : bytes.length = len := readBytes_length hread
  obtain ⟨hm, hinit, hstore, hlen, hcapW, hterm⟩ := hv
  have hv' : SBValid b := ⟨hm, hinit, hstore, hlen, hcapW, hterm⟩
  have heq := add_nogrow_eq allocOk hv' hread hfit
  obtain ⟨hpv, hpc, hpl, hpcap, hpon⟩ :=
    postState_spec (b := b) bytes hm hinit hstore hcapW (by omega)
  refine ⟨⟨postState b bytes, 1, 0⟩, heq, rfl, hpv, hpc, ?_, rfl, hpcap, hpon⟩
  rw [hpl, hbl]

/-- A successful copy into a valid destination leaves a valid
destination, whatever the source value is. -/
theorem copy_success_valid {allocOk : Bool} {src b : SB_Buffer} {out : AddOut}
    (hvb : SBValid b) (h : sb_buffer_copy allocOk src b = some out)
    (hret : out.ret = 1) : SBValid out.buf := by
  unfold sb_buffer_copy at h
  by_cases hms : src.magic ≠ SB_BUFFER_MAGIC
  · rw [if_pos hms] at h
    injection h with h
    rw [← h] at hret
    exact absurd hret (by simp)
  · rw [if_neg hms] at h
    have hmb : b.magic = SB_BUFFER_MAGIC := hvb.1
    rw [if_neg (by rw [isbuffer_valid hmb]; omega)] at h
    exact add_success_valid (reset_spec hvb).2.1 h hret

/-! ### Claims -/

/-- C1: starting from a freshly constructed buffer, every sequence of
appends (each string passed with its exact byte length) succeeds, after
which the content read through `sb_buffer_get_str` (its first
`sb_buffer_get_len` bytes) is exactly the concatenation of the appended
strings and `sb_buffer_get_len` is the sum of their lengths, for any
total length up to `2 ^ 32` (many times the inline capacity). -/
theorem sb_c1_append_concat (binit b0 : SB_Buffer) (r0 : Nat) (ss : List (List Nat))
    (hinit : binit.initArr.length = SB_BUFFER_INITIAL_CAP)
    (h0 : sb_buffer_init binit = (b0, r0))
    (hbound : totalLen ss ≤ 2 ^ 32) :
    ∃ b' a, appendAll true b0 ss = some (b', a) ∧
      (sb_buffer_get_str b').map (fun st => st.take (sb_buffer_get_len b')) =
        some ss.flatten ∧
      sb_buffer_get_len b' = totalLen ss := by
  have hb0 : b0 = (sb_buffer_init binit).1 := by rw [h0]
  subst hb0
  obtain ⟨_, hv0, hl0, _, _, hc0⟩ := init_spec hinit
  have h32 : (2:Nat) ^ 32 < 2 ^ 63 - 1 := by norm_num
  obtain ⟨b', a, heq, hv', hc', hl'⟩ := appendAll_spec ss _ hv0 (by rw [hl0]; omega)
  have hm' : b'.magic = SB_BUFFER_MAGIC := hv'.1
  have hne : ¬(b'.magic ≠ SB_BUFFER_MAGIC) := by simp [hm']
  refine ⟨b', a, heq, ?_, ?_⟩
  · unfold sb_buffer_get_str sb_buffer_get_len
    rw [if_neg hne, if_neg hne]
    show some ((activeStorage b').take b'.len) = some ss.flatten
    rw [show (activeStorage b').take b'.len = content b' from rfl, hc', hc0,
      List.nil_append]
  · unfold sb_buffer_get_len
    rw [if_neg hne, hl', hl0, Nat.zero_add]

theorem sb_c1_append_concat_witness :
    junkBuf.initArr.length = SB_BUFFER_INITIAL_CAP ∧
    sb_buffer_init junkBuf = (b0c, 1) ∧
    totalLen [[72, 105]] ≤ 2 ^ 32 ∧
    (∃ b' a, appendAll true b0c [[72, 105]] = some (b', a) ∧
      (sb_buffer_get_str b').map (fun st => st.take (sb_buffer_get_len b')) =
        some ([[72, 105]] : List (List Nat)).flatten ∧
      sb_buffer_get_len b' = totalLen [[72, 105]]) :=
  ⟨by decide, rfl, by decide,
    sb_c1_append_concat junkBuf b0c 1 [[72, 105]] (by decide) rfl (by decide)⟩

/-- C2: after every public operation that returns success (construct,
append, clear, reset, finalize, copy-as-destination), the buffer state
satisfies `len < cap` and the active storage holds the zero terminator
at offset `len`. -/
theorem sb_c2_invariant (allocOk : Bool) (op : SBOp) (b b' : SB_Buffer) (r : Nat)
    (hinit : b.initArr.length = SB_BUFFER_INITIAL_CAP)
    (hv : SBValid b ∨ op = SBOp.opInit)
    (happ : applyOp allocOk b op = some (b', r)) (hr : r = 1) :
    b'.len < b'.cap ∧ (activeStorage b')[b'.len]? = some 0 := by
  subst hr
  cases op with
  | opInit =>
    simp only [applyOp] at happ
    injection happ with happ
    have h1 : (sb_buffer_init b).1 = b' := by rw [happ]
    obtain ⟨_, hvi, _, _, _, _⟩ := init_spec hinit
    rw [← h1]
    exact ⟨hvi.2.2.2.1, hvi.2.2.2.2.2⟩
  | opAdd s len =>
    have hvb : SBValid b := by
      cases hv with
      | inl h => exact h
      | inr h => exact absurd h (by simp)
    simp only [applyOp] at happ
    cases hadd : sb_buffer_add_lstring allocOk b s len with
    | none =>
      rw [hadd, Option.map_none'] at happ
      exact absurd happ (by simp)
    | some out =>
      rw [hadd] at happ
      simp only [Option.map_some', Option.some.injEq, Prod.mk.injEq] at happ
      obtain ⟨h1, h2⟩ := happ
      have hvo := add_success_valid hvb hadd h2
      rw [← h1]
      exact ⟨hvo.2.2.2.1, hvo.2.2.2.2.2⟩
  | opClear =>
    have hvb : SBValid b := by
      cases hv with
      | inl h => exact h
      | inr h => exact absurd h (by simp)
    simp only [applyOp] at happ
    injection happ with happ
    have h1 : (sb_buffer_clear b).1 = b' := by rw [happ]
    have hvo := (clear_spec hvb).2.1
    rw [← h1]
    exact ⟨hvo.2.2.2.1, hvo.2.2.2.2.2⟩
  | opReset =>
    have hvb : SBValid b := by
      cases hv with
      | inl h => exact h
      | inr h => exact absurd h (by simp)
    simp only [applyOp] at happ
    injection happ with happ
    have h1 : (sb_buffer_reset b).1 = b' := by rw [happ]
    have hvo := (reset_spec hvb).2.1
    rw [← h1]
    exact ⟨hvo.2.2.2.1, hvo.2.2.2.2.2⟩
  | opFinalize =>
    have hvb : SBValid b := by
      cases hv with
      | inl h => exact h
      | inr h => exact absurd h (by simp)
    simp only [applyOp] at happ
    injection happ with happ
    have h1 : (sb_buffer_reset b).1 = b' := by rw [reset_eq_finalize, happ]
    have hvo := (reset_spec hvb).2.1
    rw [← h1]
    exact ⟨hvo.2.2.2.1, hvo.2.2.2.2.2⟩
  | opCopyFrom src =>
    have hvb : SBValid b := by
      cases hv with
      | inl h => exact h
      | inr h => exact absurd h (by simp)
    simp only [applyOp] at happ
    cases hc : sb_buffer_copy allocOk src b with
    | none =>
      rw [hc, Option.map_none'] at happ
      exact absurd happ (by simp)
    | some out =>
      rw [hc] at happ
      simp only [Option.map_some', Option.some.injEq, Prod.mk.injEq] at happ
      obtain ⟨h1, h2⟩ := happ
      have hvo := copy_success_valid hvb hc h2
      rw [← h1]
      exact ⟨hvo.2.2.2.1, hvo.2.2.2.2.2⟩

theorem sb_c2_invariant_witness :
    b0c.initArr.length = SB_BUFFER_INITIAL_CAP ∧
    (SBValid b0c ∨ SBOp.opClear = SBOp.opInit) ∧
    applyOp true b0c SBOp.opClear =
      some ((sb_buffer_clear b0c).1, (sb_buffer_clear b0c).2) ∧
    (sb_buffer_clear b0c).2 = 1 ∧
    ((sb_buffer_clear b0c).1.len < (sb_buffer_clear b0c).1.cap ∧
      (activeStorage (sb_buffer_clear b0c).1)[(sb_buffer_clear b0c).1.len]? = some 0) :=
  ⟨by decide, Or.inl (by decide), rfl, by decide,
    sb_c2_invariant true SBOp.opClear b0c (sb_buffer_clear b0c).1 (sb_buffer_clear b0c).2
      (by decide) (Or.inl (by decide)) rfl (by decide)⟩

/-- C3: if growth is required and the allocator fails (malloc or realloc
returns NULL), `sb_buffer_add_lstring` returns `0` and the buffer value
is exactly its prior state — content, length, capacity and the
active-storage choice are all unchanged (one allocator call was made). -/
theorem sb_c3_allocfail_unchanged (b : SB_Buffer) (s : Option (List Nat)) (len : Nat)
    (hv : SBValid b) (hneed : b.cap ≤ b.len + len)
    (hbound : b.len + len + 1 < 2 ^ 63) :
    sb_buffer_add_lstring false b s len = some ⟨b, 0, 1⟩ :=
  add_allocfail_eq hv hneed hbound

theorem sb_c3_allocfail_unchanged_witness :
    SBValid b0c ∧ b0c.cap ≤ b0c.len + 300 ∧ b0c.len + 300 + 1 < 2 ^ 63 ∧
    sb_buffer_add_lstring false b0c (some (List.replicate 300 66)) 300 =
      some ⟨b0c, 0, 1⟩ :=
  ⟨by decide, by decide, by decide,
    sb_c3_allocfail_unchanged b0c (some (List.replicate 300 66)) 300 (by decide)
      (by decide) (by decide)⟩

/-- C4 counterexample: an append that pushes the total length to
`inline_capacity - 1 = 255` — i.e. "at or past 255", where the claim
asserts a transition to heap-backed — in fact leaves the freshly
constructed buffer inline-backed, with zero allocator calls. -/
theorem sb_c4_counterexample :
    (appendAll true b0c [List.replicate 255 65]).map (fun p => (p.1.onHeap, p.2)) =
      some (false, 0) := by
  decide

/-- C4 (amended): appends never allocate while the running total stays
at or below `inline_capacity - 1 = 255` (the buffer remains
inline-backed), and the first append that pushes the total length at or
past `inline_capacity = 256` transitions the buffer to heap-backed, with
exactly one allocator call over the whole sequence and all prior content
preserved byte-for-byte. -/
theorem sb_c4_amended (binit b0 : SB_Buffer) (r0 : Nat) (ss : List (List Nat))
    (s : List Nat)
    (hinit : binit.initArr.length = SB_BUFFER_INITIAL_CAP)
    (h0 : sb_buffer_init binit = (b0, r0))
    (hsmall : totalLen ss ≤ 255)
    (hcross : 256 ≤ totalLen ss + s.length)
    (hslen : s.length ≤ 2 ^ 32) :
    (∃ b1, appendAll true b0 ss = some (b1, 0) ∧ b1.onHeap = false ∧
      content b1 = ss.flatten) ∧
    (∃ b2, appendAll true b0 (ss ++ [s]) = some (b2, 1) ∧ b2.onHeap = true ∧
      content b2 = ss.flatten ++ s) := by
  have hb0 : b0 = (sb_buffer_init binit).1 := by rw [h0]
  subst hb0
  obtain ⟨_, hv0, hl0, hcap0, ho0, hc0⟩ := init_spec hinit
  obtain ⟨b1, heq1, hv1, ho1, hcap1, hc1, hl1⟩ :=
    appendAll_inline_spec ss _ hv0 ho0 (by rw [hl0, hcap0, INITIAL_CAP_eq]; omega)
  have hc1' : content b1 = ss.flatten := by rw [hc1, hc0, List.nil_append]
  refine ⟨⟨b1, heq1, ho1, hc1'⟩, ?_⟩
  have h32 : (2:Nat) ^ 32 < 2 ^ 62 := by norm_num
  obtain ⟨out, heq2, hret2, hv2, hcnt2, hlen2, _, hgrow⟩ :=
    add_total_spec (b := b1) (s := s) hv1
      (by rw [hl1, hl0]; omega)
  obtain ⟨ha2, hon2⟩ := hgrow (by rw [hcap1, hcap0, INITIAL_CAP_eq, hl1, hl0]; omega)
  refine ⟨out.buf, ?_, hon2, ?_⟩
  · rw [appendAll_append, heq1]
    show (appendAll true b1 [s]).map (fun q => (q.1, 0 + q.2)) = some (out.buf, 1)
    simp only [appendAll, heq2, hret2, if_pos, ha2]
    rfl
  · rw [hcnt2, hc1']

theorem sb_c4_amended_witness :
    junkBuf.initArr.length = SB_BUFFER_INITIAL_CAP ∧
    sb_buffer_init junkBuf = (b0c, 1) ∧
    totalLen [List.replicate 200 65] ≤ 255 ∧
    256 ≤ totalLen [List.replicate 200 65] + (List.replicate 100 66).length ∧
    (List.replicate 100 66).length ≤ 2 ^ 32 ∧
    ((∃ b1, appendAll true b0c [List.replicate 200 65] = some (b1, 0) ∧
        b1.onHeap = false ∧ content b1 = ([List.replicate 200 65] : List (List Nat)).flatten) ∧
      (∃ b2, appendAll true b0c ([List.replicate 200 65] ++ [List.replicate 100 66]) =
          some (b2, 1) ∧ b2.onHeap = true ∧
        content b2 = ([List.replicate 200 65] : List (List Nat)).flatten ++
          List.replicate 100 66)) :=
  ⟨by decide, rfl, by decide, by decide, by decide,
    sb_c4_amended junkBuf b0c 1 [List.replicate 200 65] (List.replicate 100 66)
      (by decide) rfl (by decide) (by decide) (by decide)⟩

/-- C5 counterexample: on the freshly constructed buffer (capacity 256,
length 0) with append length `2 ^ 63`, the capacity-doubling loop of
`sb_buffer_add_lstring` never terminates: the `size_t` capacity doubles
up to `2 ^ 63`, wraps to `0`, and then stays `0 ≤ target` forever (the
embedding returns `none`, and `growLoop_zero_none` shows the wrapped
state never exits). -/
theorem sb_c5_counterexample :
    growLoop 66 b0c.cap ((b0c.len + 2 ^ 63 + 1) % W) = none ∧ SBValid b0c := by
  constructor
  · decide
  · decide

/-- C5 (amended): whenever the required size `len + length + 1` stays
below `2 ^ 63`, the doubling computation terminates and yields a new
capacity strictly greater than `length + len + 1`; termination is not
guaranteed for larger requests (see the counterexample). -/
theorem sb_c5_amended (b : SB_Buffer) (len : Nat) (hc : 0 < b.cap)
    (hbound : b.len + len + 1 < 2 ^ 63) :
    ∃ n, growLoop 66 b.cap ((b.len + len + 1) % W) = some n ∧ b.len + len + 1 < n := by
  have h63W : (2:Nat) ^ 63 < W := by rw [W_eq]; norm_num
  have hmod : (b.len + len + 1) % W = b.len + len + 1 :=
    Nat.mod_eq_of_lt (by omega)
  rw [hmod]
  exact growLoop_total66 hbound hc

theorem sb_c5_amended_witness :
    0 < b0c.cap ∧ b0c.len + 300 + 1 < 2 ^ 63 ∧
    (∃ n, growLoop 66 b0c.cap ((b0c.len + 300 + 1) % W) = some n ∧
      b0c.len + 300 + 1 < n) :=
  ⟨by decide, by decide, sb_c5_amended b0c 300 (by decide) (by decide)⟩

/-- C6 counterexample: on the freshly constructed (valid) buffer, the
append call with a NULL source and claimed length 1 does not return the
failure value 0 with the buffer unchanged — it reaches `memcpy` with a
null source, which has no defined result (undefined behaviour, `none`
in the embedding). -/
theorem sb_c6_counterexample :
    (sb_buffer_add_lstring true b0c none 1).isSome = false ∧ SBValid b0c := by
  constructor
  · decide
  · decide

/-- C6 (amended): `sb_buffer_add_lstring` performs no validation of the
source pointer.  On a buffer passing the signature check, with the
allocator succeeding, an absent (NULL) source and a nonzero claimed
length always lead to the unguarded `memcpy` reading through the null
pointer: undefined behaviour rather than a clean boolean failure.
(Only an allocation failure during growth would return 0 first.) -/
theorem sb_c6_amended (b : SB_Buffer) (len : Nat)
    (hm : b.magic = SB_BUFFER_MAGIC) (hpos : 0 < len) :
    sb_buffer_add_lstring true b none len = none :=
  add_null_src hm hpos

theorem sb_c6_amended_witness :
    b0c.magic = SB_BUFFER_MAGIC ∧ 0 < 1 ∧
    sb_buffer_add_lstring true b0c none 1 = none :=
  ⟨by decide, by decide, sb_c6_amended b0c 1 (by decide) (by decide)⟩

/-- C7: `sb_buffer_reset` and `sb_buffer_finalize` are semantically
identical — on every input buffer value, valid or invalid, they return
the same pair; on an invalid buffer both return 0 leaving the value
unchanged, and on a valid buffer both release the heap block (when one
is active), set length 0, capacity back to the inline size, make the
inline storage active and write the terminator at offset 0. -/
theorem sb_c7_reset_finalize (b : SB_Buffer) :
    sb_buffer_reset b = sb_buffer_finalize b ∧
    (b.magic ≠ SB_BUFFER_MAGIC → sb_buffer_reset b = (b, 0)) ∧
    (b.magic = SB_BUFFER_MAGIC → b.initArr.length = SB_BUFFER_INITIAL_CAP →
      (sb_buffer_reset b).2 = 1 ∧
      (sb_buffer_reset b).1.len = 0 ∧
      (sb_buffer_reset b).1.cap = SB_BUFFER_INITIAL_CAP ∧
      (sb_buffer_reset b).1.onHeap = false ∧
      (b.onHeap = true → (sb_buffer_reset b).1.heap = []) ∧
      (activeStorage (sb_buffer_reset b).1)[0]? = some 0) := by
  refine ⟨reset_eq_finalize b, ?_, ?_⟩
  · intro hm
    unfold sb_buffer_reset
    rw [if_pos hm]
  · intro hm hinit
    have hmn : ¬(b.magic ≠ SB_BUFFER_MAGIC) := by simp [hm]
    unfold sb_buffer_reset
    rw [if_neg hmn]
    refine ⟨rfl, rfl, rfl, rfl, ?_, ?_⟩
    · intro hon
      show (if b.onHeap then [] else b.heap) = []
      rw [hon]
      simp
    · show (b.initArr.set 0 0)[0]? = some 0
      apply List.getElem?_set_self
      rw [hinit, INITIAL_CAP_eq]
      omega

theorem sb_c7_reset_finalize_witness :
    b2c.magic = SB_BUFFER_MAGIC ∧ b2c.initArr.length = SB_BUFFER_INITIAL_CAP ∧
    b2c.onHeap = true ∧
    sb_buffer_reset b2c = sb_buffer_finalize b2c ∧
    (sb_buffer_reset b2c).2 = 1 ∧ (sb_buffer_reset b2c).1.len = 0 ∧
    (sb_buffer_reset b2c).1.cap = SB_BUFFER_INITIAL_CAP ∧
    (sb_buffer_reset b2c).1.onHeap = false ∧
    (sb_buffer_reset b2c).1.heap = [] ∧
    (activeStorage (sb_buffer_reset b2c).1)[0]? = some 0 := by
  have h := sb_c7_reset_finalize b2c
  have h3 := h.2.2 (by decide) (by decide)
  exact ⟨by decide, by decide, by decide, h.1, h3.1, h3.2.1, h3.2.2.1, h3.2.2.2.1,
    h3.2.2.2.2.1 (by decide), h3.2.2.2.2.2⟩

/-- C8: a successful copy between two valid buffers makes the
destination's content equal to the source's content (`cs`) and their
lengths equal; the buffers are independent values — a subsequent append
to the source leaves the copied destination's content unchanged, and a
subsequent append to the destination leaves the source's content
unchanged. -/
theorem sb_c8_copy_independent (src dest : SB_Buffer) (cs : List Nat)
    (hvs : SBValid src) (hvd : SBValid dest) (hcs : content src = cs)
    (hbound : src.len + 1 < 2 ^ 63) :
    ∃ out, sb_buffer_copy true src dest = some out ∧ out.ret = 1 ∧
      content out.buf = cs ∧ out.buf.len = src.len ∧
      (∀ s2 len2 out2, sb_buffer_add_lstring true src s2 len2 = some out2 →
        content out.buf = cs) ∧
      (∀ s2 len2 out2, sb_buffer_add_lstring true out.buf s2 len2 = some out2 →
        content src = cs) := by
  obtain ⟨out, heq, hret, hvo, hco, hlo⟩ := copy_spec hvs hvd hbound
  exact ⟨out, heq, hret, by rw [hco, hcs], hlo,
    fun _ _ _ _ => by rw [hco, hcs], fun _ _ _ _ => hcs⟩

theorem sb_c8_copy_independent_witness :
    SBValid b1c ∧ SBValid b2c ∧ content b1c = [102, 111, 111] ∧
    b1c.len + 1 < 2 ^ 63 ∧
    (∃ out, sb_buffer_copy true b1c b2c = some out ∧ out.ret = 1 ∧
      content out.buf = [102, 111, 111] ∧ out.buf.len = b1c.len ∧
      (∀ s2 len2 out2, sb_buffer_add_lstring true b1c s2 len2 = some out2 →
        content out.buf = [102, 111, 111]) ∧
      (∀ s2 len2 out2, sb_buffer_add_lstring true out.buf s2 len2 = some out2 →
        content b1c = [102, 111, 111])) :=
  ⟨by decide, by decide, by decide, by decide,
    sb_c8_copy_independent b1c b2c [102, 111, 111] (by decide) (by decide) (by decide)
      (by decide)⟩

/-- C9: on a valid buffer, `sb_buffer_clear` succeeds, sets the length
to 0 and writes the terminator at offset 0, while the capacity, the
choice of active storage (any held heap allocation included), the
storage's size and every storage byte other than offset 0 are unchanged;
consequently a subsequent append whose required size (`len + 1` bytes)
fits in the prior capacity performs no allocator call and keeps the
capacity and storage choice. -/
theorem sb_c9_clear_frame (b : SB_Buffer) (hv : SBValid b) :
    (sb_buffer_clear b).2 = 1 ∧
    (sb_buffer_clear b).1.len = 0 ∧
    (activeStorage (sb_buffer_clear b).1)[0]? = some 0 ∧
    (sb_buffer_clear b).1.cap = b.cap ∧
    (sb_buffer_clear b).1.onHeap = b.onHeap ∧
    (activeStorage (sb_buffer_clear b).1).length = (activeStorage b).length ∧
    (∀ i, i ≠ 0 → (activeStorage (sb_buffer_clear b).1)[i]? = (activeStorage b)[i]?) ∧
    (∀ bytes : List Nat, bytes.length + 1 ≤ b.cap →
      ∃ out, sb_buffer_add_lstring true (sb_buffer_clear b).1 (some bytes)
          bytes.length = some out ∧ out.ret = 1 ∧ out.allocs = 0 ∧
        out.buf.cap = b.cap ∧ out.buf.onHeap = b.onHeap) := by
  have hv' := hv
  obtain ⟨hm, hinit, hstore, hlenlt, hcapW, hterm⟩ := hv'
  have hsl : (activeStorage b).length = b.cap := storage_length hinit hstore
  obtain ⟨hret, hvc, hlen0, hcap, honh, hact⟩ := clear_spec hv
  refine ⟨hret, hlen0, ?_, hcap, honh, ?_, ?_, ?_⟩
  · rw [hact]
    apply List.getElem?_set_self
    rw [hsl]
    omega
  · rw [hact, List.length_set]
  · intro i hi
    rw [hact, List.getElem?_set, if_neg (by omega)]
  · intro bytes hfitb
    have hread := readBytes_exact bytes
    obtain ⟨out, heq, hret2, hvv, hcc, hll, ha, hcap2, hon2⟩ :=
      add_nogrow_spec true hvc hread (by rw [hlen0, hcap]; omega)
    exact ⟨out, heq, hret2, ha, by rw [hcap2, hcap], by rw [hon2, honh]⟩

theorem sb_c9_clear_frame_witness :
    SBValid b2c ∧
    ((sb_buffer_clear b2c).2 = 1 ∧
    (sb_buffer_clear b2c).1.len = 0 ∧
    (activeStorage (sb_buffer_clear b2c).1)[0]? = some 0 ∧
    (sb_buffer_clear b2c).1.cap = b2c.cap ∧
    (sb_buffer_clear b2c).1.onHeap = b2c.onHeap ∧
    (activeStorage (sb_buffer_clear b2c).1).length = (activeStorage b2c).length ∧
    (∀ i, i ≠ 0 →
      (activeStorage (sb_buffer_clear b2c).1)[i]? = (activeStorage b2c)[i]?) ∧
    (∀ bytes : List Nat, bytes.length + 1 ≤ b2c.cap →
      ∃ out, sb_buffer_add_lstring true (sb_buffer_clear b2c).1 (some bytes)
          bytes.length = some out ∧ out.ret = 1 ∧ out.allocs = 0 ∧
        out.buf.cap = b2c.cap ∧ out.buf.onHeap = b2c.onHeap)) :=
  ⟨by decide, sb_c9_clear_frame b2c (by decide)⟩

/-- C10: copying a valid buffer onto itself succeeds (returns 1) but
erases the content: because the source fields are read only after the
destination's hard reset, afterwards the length is 0, the content is
empty, and the buffer is inline-backed. -/
theorem sb_c10_copy_self (b : SB_Buffer) (hv : SBValid b) :
    ∃ out, sb_buffer_copy_aliased true b = some out ∧ out.ret = 1 ∧
      out.buf.len = 0 ∧ content out.buf = [] ∧ out.buf.onHeap = false := by
  obtain ⟨out, heq, hret, hvo, hl, hc, ho⟩ := copy_aliased_spec hv
  exact ⟨out, heq, hret, hl, hc, ho⟩

theorem sb_c10_copy_self_witness :
    SBValid b1c ∧
    (∃ out, sb_buffer_copy_aliased true b1c = some out ∧ out.ret = 1 ∧
      out.buf.len = 0 ∧ content out.buf = [] ∧ out.buf.onHeap = false) :=
  ⟨by decide, sb_c10_copy_self b1c (by decide)⟩
